import Mathlib

/-!
Shallow embedding of the `sam-converter` repository (files
`sam_converter/converter.py` and `sam_converter/extractor.py`) and proofs
about its reference-classification, naming-normalization, metadata-writer
and macro-injection logic.

Strings are modelled as `List Char`.  Python's `str.lower` / `str.upper`
and the regex character classes `[A-Z]`, `[a-z]`, `[0-9]`, `\w`, `\s` are
modelled over ASCII (all identifiers handled by this program are ASCII).
Python `dict` comprehensions are modelled with last-entry-wins lookup;
Python `set`s are modelled as first-seen-order deduplicated lists (only
membership, emptiness and cardinality of these sets are ever consumed).
-/

abbrev Str := List Char

def str (s : String) : Str := s.data

/-- The 26 ASCII uppercase/lowercase letter pairs, used to model
`str.upper`/`str.lower` and the regex classes `[A-Z]`/`[a-z]`. -/
def upperLowerPairs : List (Char × Char) :=
  [('A','a'), ('B','b'), ('C','c'), ('D','d'), ('E','e'), ('F','f'),
   ('G','g'), ('H','h'), ('I','i'), ('J','j'), ('K','k'), ('L','l'),
   ('M','m'), ('N','n'), ('O','o'), ('P','p'), ('Q','q'), ('R','r'),
   ('S','s'), ('T','t'), ('U','u'), ('V','v'), ('W','w'), ('X','x'),
   ('Y','y'), ('Z','z')]

def asciiLower (c : Char) : Char :=
  match upperLowerPairs.find? (fun p => p.1 = c) with
  | some p => p.2
  | none => c

def asciiUpper (c : Char) : Char :=
  match upperLowerPairs.find? (fun p => p.2 = c) with
  | some p => p.1
  | none => c

/-- Python `s.lower()` (ASCII model). -/
def lowerStr (s : Str) : Str := s.map asciiLower

/-- Python `s.upper()` (ASCII model). -/
def upperStr (s : Str) : Str := s.map asciiUpper

/-- Regex class `[A-Z]`. -/
def isUpperAZ (c : Char) : Bool :=
  (upperLowerPairs.find? (fun p => p.1 = c)).isSome

/-- Regex class `[a-z]`. -/
def isLowerAZ (c : Char) : Bool :=
  (upperLowerPairs.find? (fun p => p.2 = c)).isSome

def digitChars : List Char := ['0','1','2','3','4','5','6','7','8','9']

/-- Regex class `[0-9]`. -/
def isDigitCh (c : Char) : Bool := digitChars.contains c

/-- Model of `converter.strip_base_suffix`: strip the trailing 4 characters when the
upper-cased name ends with the literal `BASE` (the code's check is
`name.upper().endswith("BASE")`, i.e. case-insensitive). -/
def strip_base_suffix (name : Str) : Str :=
  if (str "BASE").isSuffixOf (upperStr name) then name.take (name.length - 4)
  else name

/-- Maximal leading run of `[a-z]` characters (greedy `[a-z]+` tail),
returning the run and the remainder. -/
def takeLowerRun : Str → Str × Str
  | [] => ([], [])
  | c :: cs =>
    if isLowerAZ c then
      let r := takeLowerRun cs
      (c :: r.1, r.2)
    else ([], c :: cs)

def newlineChar : Char := Char.ofNat 10

def underscoreChar : Char := '_'

/-- First re.sub pass of `to_snake_case`:
`re.sub('(.)([A-Z][a-z]+)', r'\1_\2', name)`.  A left-to-right scan: a
match needs any non-newline character, then an `[A-Z]`, then a greedy
nonempty `[a-z]` run; matched text is re-emitted with an underscore
inserted after the first character, and scanning resumes after the match.
Structured on fuel (each step consumes at least one character, so fuel
`s.length` suffices). -/
def sub1Fuel : Nat → Str → Str
  | 0, s => s
  | _ + 1, [] => []
  | _ + 1, [c] => [c]
  | fuel + 1, c :: d :: rest =>
    if c ≠ newlineChar ∧ isUpperAZ d ∧ (rest.head?.map isLowerAZ).getD false then
      let r := takeLowerRun rest
      c :: underscoreChar :: d :: (r.1 ++ sub1Fuel fuel r.2)
    else c :: sub1Fuel fuel (d :: rest)

def sub1 (s : Str) : Str := sub1Fuel s.length s

/-- Second re.sub pass of `to_snake_case`:
`re.sub('([a-z0-9])([A-Z])', r'\1_\2', s1)`. -/
def sub2 : Str → Str
  | [] => []
  | [c] => [c]
  | c :: d :: rest =>
    if (isLowerAZ c ∨ isDigitCh c) ∧ isUpperAZ d then
      c :: underscoreChar :: d :: sub2 rest
    else c :: sub2 (d :: rest)

/-- Model of `converter.to_snake_case`: two underscore-inserting regex passes,
then lowercase the whole string. -/
def to_snake_case (name : Str) : Str := lowerStr (sub2 (sub1 name))

/-- Model of `converter.TableRef`: `(database, schema, table)`; empty string means
"unqualified at that level". -/
structure TableRef where
  database : Str
  schema : Str
  table : Str
deriving DecidableEq, Repr

/-- Model of `converter.ConversionResult`: one per converted input file.
`output_path` is modelled as an opaque string. -/
structure ConversionResult where
  model_name : Str
  output_path : Str
  table_refs : List TableRef
deriving DecidableEq, Repr

/-- Model of `extractor.CategorizedRefs`: classifier output for one model. -/
structure CategorizedRefs where
  model_name : Str
  output_path : Str
  refs : List Str
  sources : List TableRef
deriving DecidableEq, Repr

/-- The *match key* of a reference: lowercased `strip_base_suffix` of its
table name (`extractor.categorize_refs`, line 44/59). -/
def matchKey (t : TableRef) : Str := lowerStr (strip_base_suffix t.table)

/-- The `model_names` dict of `categorize_refs`:
`{r.model_name.lower(): r.model_name for r in results}` — lookup of the
originally-cased model name by lowercased name, later entries winning. -/
def modelNamesLookup (results : List ConversionResult) (key : Str) : Option Str :=
  ((results.filter (fun r => lowerStr r.model_name = key)).getLast?).map
    (fun r => r.model_name)

/-- The qualification set `model_qualifications[key]` of `categorize_refs`:
lowercased `(database, schema)` pairs of every qualified reference, anywhere
in the batch, whose match key is `key` and is a known model name.  The
Python `set` is modelled as a deduplicated list. -/
def modelQualifications (results : List ConversionResult) (key : Str) :
    List (Str × Str) :=
  (((results.map (fun r => r.table_refs)).flatten).filterMap (fun t =>
    if matchKey t = key ∧ (modelNamesLookup results key).isSome ∧
        (t.database ≠ [] ∨ t.schema ≠ []) then
      some (lowerStr t.database, lowerStr t.schema)
    else none)).dedup

/-- Model of `extractor._is_likely_ref`: unqualified references are refs; otherwise
a reference is a ref only when the recorded qualification set is empty, or
has exactly one member equal to this reference's lowercased
`(database, schema)`. -/
def is_likely_ref (results : List ConversionResult) (t : TableRef)
    (key : Str) : Bool :=
  if t.database = [] ∧ t.schema = [] then true
  else
    let refQual := (lowerStr t.database, lowerStr t.schema)
    let knownQuals := modelQualifications results key
    if knownQuals = [] then true
    else if knownQuals.length > 1 then false
    else decide (refQual ∈ knownQuals)

/-- The per-reference decision taken by the loop body of
`categorize_refs`: `some name` when the reference is classified as a ref
to the model whose originally-cased name is `name`, `none` when it is
classified as a source. -/
def refTarget (results : List ConversionResult) (result : ConversionResult)
    (t : TableRef) : Option Str :=
  let key := matchKey t
  match modelNamesLookup results key with
  | some canonical =>
    if key ≠ lowerStr result.model_name ∧ is_likely_ref results t key then
      some canonical
    else none
  | none => none

/-- The inner loop of `categorize_refs` over one result's `table_refs`,
building the `refs` and `sources` lists in order. -/
def categorizeLoop (results : List ConversionResult)
    (result : ConversionResult) : List TableRef → List Str × List TableRef
  | [] => ([], [])
  | t :: ts =>
    let rest := categorizeLoop results result ts
    match refTarget results result t with
    | some canonical => (canonical :: rest.1, rest.2)
    | none => (rest.1, t :: rest.2)

/-- Model of `extractor.categorize_refs`: one `CategorizedRefs` per input result,
in order. -/
def categorize_refs (results : List ConversionResult) :
    List CategorizedRefs :=
  results.map (fun result =>
    let rs := categorizeLoop results result result.table_refs
    { model_name := result.model_name
      output_path := result.output_path
      refs := rs.1
      sources := rs.2 })

/-- Python string comparison (`<=`): lexicographic by code point, used to
model `sorted(...)`. -/
def strLe : Str → Str → Bool
  | [], _ => true
  | _ :: _, [] => false
  | a :: as, b :: bs => if a < b then true else if a = b then strLe as bs else false

/-- Lexicographic comparison on `(string, string)` pairs, modelling
Python's tuple comparison in `sorted(sources_by_key.items())`. -/
def pairLe (a b : Str × Str) : Bool :=
  if a.1 = b.1 then strLe a.2 b.2
  else strLe a.1 b.1

/-- Python `sorted` on a list of strings (stable; modelled by insertion
sort, which is also stable). -/
def sortStrs (l : List Str) : List Str :=
  List.insertionSort (fun a b => strLe a b = true) l

def sortPairs (l : List (Str × Str)) : List (Str × Str) :=
  List.insertionSort (fun a b => pairLe a b = true) l

/-- Model of `extractor._is_mixed_case`: neither all-lower nor all-upper. -/
def is_mixed_case (name : Str) : Bool :=
  name ≠ lowerStr name ∧ name ≠ upperStr name

/-- Model of `extractor._build_source_name`: join the non-empty of `[db, schema]`
with an underscore and lowercase; fixed sentinel when both empty. -/
def build_source_name (db schema : Str) : Str :=
  if db ≠ [] ∧ schema ≠ [] then lowerStr (db ++ underscoreChar :: schema)
  else if db ≠ [] then lowerStr db
  else if schema ≠ [] then lowerStr schema
  else str "unknown_source"

/-- Model of `t.endswith("BASE")` — the exact-case check used by
`extractor._deduplicate_base_tables` and `inject_dbt_macros`. -/
def endsWithBASE (t : Str) : Bool := (str "BASE").isSuffixOf t

/-- Model of `extractor._deduplicate_base_tables`: drop every table whose name ends
with the exact string `BASE`. -/
def deduplicate_base_tables (tables : List Str) : List Str :=
  tables.filter (fun t => ¬ endsWithBASE t)

/-- One `{model, depends_on}` entry of the `model_refs.yml` document. -/
structure RefsEntry where
  model : Str
  depends_on : List Str
deriving DecidableEq, Repr

/-- The `model_refs.yml` document. -/
structure RefsDoc where
  version : Nat
  model_refs : List RefsEntry
deriving DecidableEq, Repr

/-- The writer `extractor.extract_refs` modelled as a pure function: `none` when the
code returns without writing a file (no model has refs), otherwise the
document it writes.  One entry per model with non-empty `refs`, each
`depends_on` list sorted. -/
def extract_refs (categorized : List CategorizedRefs) : Option RefsDoc :=
  let refs_list := categorized.filterMap (fun cat =>
    if cat.refs ≠ [] then some (RefsEntry.mk cat.model_name (sortStrs cat.refs))
    else none)
  if refs_list = [] then none
  else some { version := 2, model_refs := refs_list }

/-- One table entry of the `sources.yml` document: a name and, when the
original identifier had mixed case, an `identifier` field with the
original casing. -/
structure TableEntry where
  name : Str
  identifier : Option Str
deriving DecidableEq, Repr

/-- One source group of the `sources.yml` document. -/
structure SourceEntry where
  name : Str
  database : Option Str
  schema : Option Str
  tables : List TableEntry
deriving DecidableEq, Repr

/-- The `sources.yml` document. -/
structure SourcesDoc where
  version : Nat
  sources : List SourceEntry
deriving DecidableEq, Repr

/-- All source `TableRef`s of the batch in encounter order
(the iteration order of `extract_sources`' double loop). -/
def sourceRefsFlat (categorized : List CategorizedRefs) : List TableRef :=
  (categorized.map (fun cat => cat.sources)).flatten

/-- The grouping key of `extract_sources`: lowercased `(db, schema)`. -/
def groupKeyLower (r : TableRef) : Str × Str :=
  (lowerStr r.database, lowerStr r.schema)

/-- The keys of `sources_by_key` in first-insertion order. -/
def groupKeys (categorized : List CategorizedRefs) : List (Str × Str) :=
  ((sourceRefsFlat categorized).map groupKeyLower).dedup

/-- Model of `sources_by_key[key]`: the set of table names (original casing) filed
under a lowercased `(db, schema)` key, modelled as a first-seen-order
deduplicated list. -/
def groupTables (categorized : List CategorizedRefs) (key : Str × Str) :
    List Str :=
  ((sourceRefsFlat categorized).filterMap (fun r =>
    if groupKeyLower r = key then some r.table else none)).dedup

/-- Model of `original_casing[key]`: the `(database, schema)` casing of the first
reference filed under `key`. -/
def originalCasing (categorized : List CategorizedRefs) (key : Str × Str) :
    Str × Str :=
  match (sourceRefsFlat categorized).find? (fun r => groupKeyLower r = key) with
  | some r => (r.database, r.schema)
  | none => ([], [])

/-- The table entry emitted by `extract_sources` for one table name:
snake-cased name plus original-casing identifier when mixed case, else the
name as-is. -/
def mkTableEntry (t : Str) : TableEntry :=
  if is_mixed_case t then { name := to_snake_case t, identifier := some t }
  else { name := t, identifier := none }

/-- The source group emitted by `extract_sources` for one key. -/
def mkSourceEntry (categorized : List CategorizedRefs) (key : Str × Str) :
    SourceEntry :=
  let oc := originalCasing categorized key
  let dedup := deduplicate_base_tables (groupTables categorized key)
  { name := build_source_name oc.1 oc.2
    database := if oc.1 ≠ [] then some oc.1 else none
    schema := if oc.2 ≠ [] then some oc.2 else none
    tables := (sortStrs dedup).map mkTableEntry }

/-- The writer `extractor.extract_sources` modelled as the document it writes:
groups sorted by lowercased key, each group's surviving tables sorted. -/
def extract_sources (categorized : List CategorizedRefs) : SourcesDoc :=
  { version := 2
    sources := (sortPairs (groupKeys categorized)).map
      (mkSourceEntry categorized) }

/-- Model of `all_sources_by_location[(db, schema)]` of `inject_dbt_macros`: the
set of table names observed as sources at an exact-cased `(db, schema)`
location, across the whole batch (first-seen-order deduplicated list). -/
def allSourcesByLocation (categorized : List CategorizedRefs)
    (db schema : Str) : List Str :=
  ((sourceRefsFlat categorized).filterMap (fun r =>
    if r.database = db ∧ r.schema = schema then some r.table else none)).dedup

/-- The `non_base_tables_lower` dict of `inject_dbt_macros`:
`{strip_base_suffix(t).lower(): strip_base_suffix(t) for t in tables if not
t.endswith("BASE")}` — lookup by lowercased stripped name, later entries
winning. -/
def nonBaseTablesLower (tables : List Str) (key : Str) : Option Str :=
  (((tables.filter (fun t => ¬ endsWithBASE t)).filter (fun t =>
      lowerStr (strip_base_suffix t) = key)).getLast?).map strip_base_suffix

/-- The `canonical_names.get((db, schema, table), strip_base_suffix(table))`
lookup of `inject_dbt_macros`: for a table observed at its location, a
`BASE`-suffixed name collapses onto the exact casing of a non-suffixed
same-named-after-stripping table of the same location when one exists,
else onto its own stripped form; a table not in the map falls back to its
stripped form. -/
def canonicalNameAt (categorized : List CategorizedRefs)
    (db schema table : Str) : Str :=
  let tables := allSourcesByLocation categorized db schema
  let stripped := strip_base_suffix table
  if table ∈ tables then
    if endsWithBASE table then
      match nonBaseTablesLower tables (lowerStr stripped) with
      | some v => v
      | none => stripped
    else stripped
  else stripped

/-- The table name put into the source placeholder (`inject_dbt_macros`,
line 267): snake-cased when the canonical name has mixed case. -/
def emittedTableName (canonical : Str) : Str :=
  if is_mixed_case canonical then to_snake_case canonical else canonical

/-- Regex class `\w` (ASCII model). -/
def isWordChar (c : Char) : Bool := isUpperAZ c ∨ isLowerAZ c ∨ isDigitCh c ∨ c = underscoreChar

/-- Regex class `\s` (ASCII model). -/
def isSpaceChar (c : Char) : Bool :=
  c = ' ' ∨ c = Char.ofNat 9 ∨ c = Char.ofNat 10 ∨ c = Char.ofNat 11 ∨
  c = Char.ofNat 12 ∨ c = Char.ofNat 13

/-- One of the source-rewrite regexes of
`extractor._replace_table_with_source`: a `\b`-delimited escaped literal,
with the bare-name pattern additionally carrying the `(?!\s*\()` negative
lookahead. -/
structure Pat where
  lit : Str
  lookahead : Bool
deriving DecidableEq, Repr

/-- Case-insensitive literal prefix test (the patterns are applied with
`re.IGNORECASE`). -/
def ciLitAt : Str → Str → Bool
  | [], _ => true
  | _ :: _, [] => false
  | a :: as, b :: bs => asciiLower a = asciiLower b ∧ ciLitAt as bs

/-- Boundary `\b`: a word boundary between an optional previous and next character
(absent counts as non-word). -/
def boundaryBetween (prev next : Option Char) : Bool :=
  ((prev.map isWordChar).getD false) ≠ ((next.map isWordChar).getD false)

def dropLeadingSpace : Str → Str
  | [] => []
  | c :: cs => if isSpaceChar c then dropLeadingSpace cs else c :: cs

/-- Does `(?!\s*\()` *fail* here, i.e. does whitespace followed by `(`
start at `s`? -/
def parenAhead (s : Str) : Bool :=
  (dropLeadingSpace s).head? = some '('

/-- Does pattern `p` match at the current position of `s`, whose previous
character is `prev`?  A match needs: a word boundary before, the literal
(case-insensitively), a word boundary after, and — for the bare pattern —
the negative lookahead.  Literals are nonempty for every pattern the code
builds (table names are never empty), so a match always consumes at least
one character. -/
def patMatchAt (p : Pat) (prev : Option Char) (s : Str) : Bool :=
  p.lit ≠ [] ∧
  ciLitAt p.lit s ∧
  boundaryBetween prev s.head? ∧
  boundaryBetween ((s.take p.lit.length).getLast?) ((s.drop p.lit.length).head?) ∧
  (p.lookahead → ¬ parenAhead (s.drop p.lit.length))

/-- Model of `re.search(pattern, sql, flags=re.IGNORECASE)`: does `p` match at some
position of `s`?  `prev` is the character before the current position. -/
def searchFrom (p : Pat) (prev : Option Char) : Str → Bool
  | [] => false
  | c :: cs => patMatchAt p prev (c :: cs) ∨ searchFrom p (some c) cs

def searchPat (p : Pat) (s : Str) : Bool := searchFrom p none s

/-- Model of `re.sub(pattern, macro, sql, flags=re.IGNORECASE)`: left-to-right
scan replacing every non-overlapping match of `p` with `mac`; scanning
resumes after each match.  Structured on fuel (a match consumes at least
one character, so fuel `s.length` suffices). -/
def subFrom (p : Pat) (mac : Str) : Nat → Option Char → Str → Str
  | 0, _, s => s
  | _ + 1, _, [] => []
  | fuel + 1, prev, c :: cs =>
    if patMatchAt p prev (c :: cs) then
      mac ++ subFrom p mac fuel (((c :: cs).take p.lit.length).getLast?)
        ((c :: cs).drop p.lit.length)
    else c :: subFrom p mac fuel (some c) cs

def subPat (p : Pat) (mac : Str) (s : Str) : Str := subFrom p mac s.length none s

def singleQuoteChar : Char := Char.ofNat 39

/-- The replacement text
`"{{ source('source_name', 'table_name') }}"`. -/
def sourcePlaceholder (source_name table_name : Str) : Str :=
  str "\x7b\x7b source(" ++ singleQuoteChar :: source_name ++
  singleQuoteChar :: str ", " ++ singleQuoteChar :: table_name ++
  singleQuoteChar :: str ") \x7d\x7d"

/-- The fully-qualified pattern `\b db\.schema\.table \b`. -/
def fullPat (t : TableRef) : Pat :=
  { lit := t.database ++ '.' :: t.schema ++ '.' :: t.table, lookahead := false }

/-- The schema-qualified pattern `\b schema\.table \b`. -/
def schemaPat (t : TableRef) : Pat :=
  { lit := t.schema ++ '.' :: t.table, lookahead := false }

/-- The bare pattern `\b table \b (?!\s*\()`. -/
def barePat (t : TableRef) : Pat :=
  { lit := t.table, lookahead := true }

/-- The pattern list built by `_replace_table_with_source`: fully
qualified (when database and schema are both non-empty), then schema
qualified (when schema is non-empty), then bare. -/
def buildPatterns (t : TableRef) : List Pat :=
  (if t.database ≠ [] ∧ t.schema ≠ [] then [fullPat t] else []) ++
  (if t.schema ≠ [] then [schemaPat t] else []) ++
  [barePat t]

/-- The `for pattern in patterns: if re.search(...): sub; break` loop. -/
def firstSub (mac : Str) : List Pat → Str → Str
  | [], sql => sql
  | p :: ps, sql =>
    if searchPat p sql then subPat p mac sql
    else firstSub mac ps sql

/-- Model of `extractor._replace_table_with_source`. -/
def replace_table_with_source (sql : Str) (t : TableRef)
    (source_name table_name : Str) : Str :=
  firstSub (sourcePlaceholder source_name table_name) (buildPatterns t) sql

/-! ## Concrete batches used to instantiate the theorems -/

def demoRefB : TableRef := ⟨[], [], str "model_b"⟩

def demoExtRef : TableRef := ⟨str "EXT", str "raw", str "ext_tbl"⟩

def demoResA : ConversionResult :=
  ⟨str "model_a", str "out_a", [demoRefB, demoExtRef]⟩

def demoResB : ConversionResult := ⟨str "model_b", str "out_b", []⟩

def demoResults : List ConversionResult := [demoResA, demoResB]

def demoUsersRef1 : TableRef := ⟨str "EXTERNAL", str "raw", str "users"⟩

def demoUsersRef2 : TableRef := ⟨str "SAM", str "dbt", str "users"⟩

def demoResMA : ConversionResult := ⟨str "model_a", str "oa", [demoUsersRef1]⟩

def demoBatchConflict : List ConversionResult :=
  [demoResMA, ⟨str "model_b", str "ob", [demoUsersRef2]⟩,
   ⟨str "users", str "ou", []⟩]

def demoSrcBase : TableRef := ⟨str "SAM", str "dbo", str "PatientBASE"⟩

def demoSrcPlain : TableRef := ⟨str "SAM", str "dbo", str "Patient"⟩

def demoCats : List CategorizedRefs :=
  [⟨str "model_a", str "oa", [], [demoSrcBase]⟩,
   ⟨str "model_b", str "ob", [], [demoSrcPlain]⟩]

def demoSql : Str := str "SELECT a FROM SAM.dbo.Units u"

def demoTRef : TableRef := ⟨str "SAM", str "dbo", str "Units"⟩

def demoCatsRefs : List CategorizedRefs :=
  [⟨str "model_a", str "oa", [str "model_b"], []⟩]

/-! ## Character-level lemmas for case normalization -/

theorem asciiLower_of_not_upper {c : Char} (h : isUpperAZ c = false) :
    asciiLower c = c := by
  unfold asciiLower
  unfold isUpperAZ at h
  cases hf : upperLowerPairs.find? (fun p => p.1 = c) with
  | none => rfl
  | some p => rw [hf] at h; simp at h

theorem pairs_snd_not_upper : ∀ p ∈ upperLowerPairs, isUpperAZ p.2 = false := by
  decide

theorem isUpperAZ_asciiLower (c : Char) : isUpperAZ (asciiLower c) = false := by
  unfold asciiLower
  cases hf : upperLowerPairs.find? (fun p => p.1 = c) with
  | none => simpa [isUpperAZ] using hf
  | some p => exact pairs_snd_not_upper p (List.mem_of_find?_eq_some hf)

theorem noUpper_lowerStr (s : Str) : ∀ c ∈ lowerStr s, isUpperAZ c = false := by
  intro c hc
  obtain ⟨a, -, rfl⟩ := List.mem_map.mp hc
  exact isUpperAZ_asciiLower a

theorem lowerStr_of_noUpper {s : Str} (h : ∀ c ∈ s, isUpperAZ c = false) :
    lowerStr s = s :=
  (List.map_congr_left (fun a ha => asciiLower_of_not_upper (h a ha))).trans
    (List.map_id s)

theorem sub1Fuel_id : ∀ (fuel : Nat) (s : Str),
    (∀ c ∈ s, isUpperAZ c = false) → sub1Fuel fuel s = s := by
  intro fuel
  induction fuel with
  | zero => intro s _; rfl
  | succ fuel ih =>
    intro s h
    match s with
    | [] => rfl
    | [c] => rfl
    | c :: d :: rest =>
      have hd : isUpperAZ d = false := h d (by simp)
      have hneg : ¬(c ≠ newlineChar ∧ isUpperAZ d ∧
          ((rest.head?.map isLowerAZ).getD false : Bool)) := by
        rintro ⟨-, h2, -⟩
        rw [hd] at h2
        exact absurd h2 (by simp)
      simp only [sub1Fuel, if_neg hneg]
      rw [ih (d :: rest) (fun x hx => h x (List.mem_cons_of_mem _ hx))]

theorem sub2_id : ∀ s : Str, (∀ c ∈ s, isUpperAZ c = false) → sub2 s = s
  | [], _ => rfl
  | [c], _ => rfl
  | c :: d :: rest, h => by
    have hd : isUpperAZ d = false := h d (by simp)
    have hneg : ¬((isLowerAZ c ∨ isDigitCh c) ∧ isUpperAZ d) := by
      rintro ⟨-, h2⟩
      rw [hd] at h2
      exact absurd h2 (by simp)
    simp only [sub2, if_neg hneg]
    rw [sub2_id (d :: rest) (fun x hx => h x (List.mem_cons_of_mem _ hx))]

/-! ## Classifier loop characterization -/

theorem categorizeLoop_eq (results : List ConversionResult)
    (result : ConversionResult) :
    ∀ ts : List TableRef, categorizeLoop results result ts =
      (ts.filterMap (refTarget results result),
       ts.filter (fun t => (refTarget results result t).isNone))
  | [] => rfl
  | t :: ts => by
    simp only [categorizeLoop, categorizeLoop_eq results result ts]
    cases h : refTarget results result t <;>
      simp [List.filterMap_cons, List.filter_cons, h]

theorem filterMap_isNone_length_partition {α β : Type} (f : α → Option β) :
    ∀ l : List α,
      (l.filterMap f).length + (l.filter (fun a => (f a).isNone)).length
        = l.length
  | [] => rfl
  | a :: l => by
    have ih := filterMap_isNone_length_partition f l
    cases h : f a <;>
      simp [List.filterMap_cons, List.filter_cons, h, ← ih] <;> omega

/-! ## Claim theorems -/

/-- Claim C1 (code_bug evaluation): the code's `strip_base_suffix` strips
the tail marker case-insensitively.  It does strip `PopulationSpellBASE`
and leaves `BASEPopulation` untouched as the spec says, but it also strips
the lowercase tail `base` — `strip_base_suffix("PopulationSpellbase")`
returns `"PopulationSpell"`, contradicting the spec and the repository's
own test `test_lowercase_base_not_stripped`. -/
theorem claim_C1_strip_suffix_divergence :
    strip_base_suffix (str "PopulationSpellBASE") = str "PopulationSpell" ∧
    strip_base_suffix (str "BASEPopulation") = str "BASEPopulation" ∧
    strip_base_suffix (str "PopulationSpellbase") = str "PopulationSpell" := by
  decide

/-- Claim C2: `categorize_refs` returns exactly one `CategorizedRefs` per
input result, in the same order; a result's `refs` are exactly the
ref-classified references (in original order, mapped to model names) and
its `sources` exactly the source-classified references (in original
order), so every `TableRef` lands in exactly one of the two lists, and the
two lengths add up to the number of input references. -/
theorem claim_C2_classification_coverage (results : List ConversionResult) :
    categorize_refs results = results.map (fun result =>
      { model_name := result.model_name
        output_path := result.output_path
        refs := result.table_refs.filterMap (refTarget results result)
        sources := result.table_refs.filter
          (fun t => (refTarget results result t).isNone) }) ∧
    ∀ result ∈ results,
      (result.table_refs.filterMap (refTarget results result)).length +
        (result.table_refs.filter
          (fun t => (refTarget results result t).isNone)).length
        = result.table_refs.length := by
  constructor
  · unfold categorize_refs
    refine List.map_congr_left (fun result _ => ?_)
    rw [categorizeLoop_eq results result result.table_refs]
  · intro result _
    exact filterMap_isNone_length_partition (refTarget results result)
      result.table_refs

/-- Witness for C2: the coverage equation evaluated on a concrete
two-model batch. -/
theorem claim_C2_classification_coverage_witness :
    (demoResA.table_refs.filterMap (refTarget demoResults demoResA)).length +
      (demoResA.table_refs.filter
        (fun t => (refTarget demoResults demoResA t).isNone)).length
      = demoResA.table_refs.length :=
  (claim_C2_classification_coverage demoResults).2 demoResA (by decide)

/-- Claim C8: `to_snake_case` is idempotent, and on the concrete examples
`HTTPServer` and `already_snake` it produces `http_server` and
`already_snake`. -/
theorem claim_C8_snake_case_idempotent :
    (∀ x : Str, to_snake_case (to_snake_case x) = to_snake_case x) ∧
    to_snake_case (str "HTTPServer") = str "http_server" ∧
    to_snake_case (str "already_snake") = str "already_snake" := by
  refine ⟨fun x => ?_, by decide, by decide⟩
  unfold to_snake_case
  have h := noUpper_lowerStr (sub2 (sub1 x))
  rw [show sub1 (lowerStr (sub2 (sub1 x))) = lowerStr (sub2 (sub1 x)) from
      sub1Fuel_id _ _ h,
    sub2_id _ h, lowerStr_of_noUpper h]

/-- Claim C3: when the qualification set recorded for a match key holds
two or more distinct lowercased `(database, schema)` pairs, every
qualified reference with that match key that names another model of the
batch is classified as a source (its per-reference decision is `none` and
it lands in that result's `sources`), never as a ref. -/
theorem claim_C3_conflicting_qualification_is_source
    (results : List ConversionResult) (result : ConversionResult)
    (t : TableRef)
    ( _hres : result ∈ results)
    (htr : t ∈ result.table_refs)
    (hqual : t.database ≠ [] ∨ t.schema ≠ [])
    ( _hknown : (modelNamesLookup results (matchKey t)).isSome = true)
    ( _hother : matchKey t ≠ lowerStr result.model_name)
    (hconf : 2 ≤ (modelQualifications results (matchKey t)).length) :
    refTarget results result t = none ∧
    t ∈ (categorizeLoop results result result.table_refs).2 := by
  have h1 : ¬(t.database = [] ∧ t.schema = []) := by
    rcases hqual with h | h
    · exact fun hc => h hc.1
    · exact fun hc => h hc.2
  have h2 : ¬(modelQualifications results (matchKey t) = []) := by
    intro he
    rw [he] at hconf
    simp at hconf
  have h3 : (modelQualifications results (matchKey t)).length > 1 := by omega
  have hlr : is_likely_ref results t (matchKey t) = false := by
    simp only [is_likely_ref, if_neg h1, if_neg h2, if_pos h3]
  have hrt : refTarget results result t = none := by
    simp only [refTarget]
    cases hm : modelNamesLookup results (matchKey t) with
    | none => rfl
    | some c =>
      show (if matchKey t ≠ lowerStr result.model_name ∧
          is_likely_ref results t (matchKey t) = true then some c else none)
        = none
      rw [if_neg]
      rintro ⟨-, hl⟩
      rw [hlr] at hl
      exact absurd hl (by simp)
  refine ⟨hrt, ?_⟩
  rw [categorizeLoop_eq]
  exact List.mem_filter.mpr ⟨htr, by rw [hrt]; rfl⟩

/-- Witness for C3: the spec's `users` scenario — two differently
qualified references to a model literally named `users` are both recorded,
and the `(EXTERNAL, raw)` reference is classified as a source. -/
theorem claim_C3_conflicting_qualification_is_source_witness :
    refTarget demoBatchConflict demoResMA demoUsersRef1 = none ∧
    demoUsersRef1 ∈ (categorizeLoop demoBatchConflict demoResMA
      demoResMA.table_refs).2 :=
  claim_C3_conflicting_qualification_is_source demoBatchConflict demoResMA
    demoUsersRef1 (by decide) (by decide) (by decide) (by decide) (by decide)
    (by decide)

/-- Claim C4: an unqualified reference (empty database and schema) whose
match key names another model of the batch is always classified as a ref:
the per-reference decision returns the originally-cased model name from
the model-name map, and that name is appended to the result's `refs`. -/
theorem claim_C4_unqualified_known_is_ref
    (results : List ConversionResult) (result : ConversionResult)
    (t : TableRef)
    ( _hres : result ∈ results)
    (htr : t ∈ result.table_refs)
    (hunq : t.database = [] ∧ t.schema = [])
    ( _hknown : (modelNamesLookup results (matchKey t)).isSome = true)
    (hother : matchKey t ≠ lowerStr result.model_name) :
    refTarget results result t = modelNamesLookup results (matchKey t) ∧
    ∀ name, modelNamesLookup results (matchKey t) = some name →
      name ∈ (categorizeLoop results result result.table_refs).1 := by
  have hlr : is_likely_ref results t (matchKey t) = true := by
    simp only [is_likely_ref, if_pos hunq]
  have hrt : refTarget results result t
      = modelNamesLookup results (matchKey t) := by
    simp only [refTarget]
    cases hm : modelNamesLookup results (matchKey t) with
    | none => rfl
    | some c =>
      show (if matchKey t ≠ lowerStr result.model_name ∧
          is_likely_ref results t (matchKey t) = true then some c else none)
        = some c
      rw [if_pos ⟨hother, hlr⟩]
  refine ⟨hrt, fun name hm => ?_⟩
  rw [categorizeLoop_eq]
  exact List.mem_filterMap.mpr ⟨t, htr, by rw [hrt, hm]⟩

/-- Witness for C4: `model_a` referencing unqualified `model_b` gets
`model_b` appended to its refs. -/
theorem claim_C4_unqualified_known_is_ref_witness :
    str "model_b" ∈ (categorizeLoop demoResults demoResA
      demoResA.table_refs).1 :=
  (claim_C4_unqualified_known_is_ref demoResults demoResA demoRefB
    (by decide) (by decide) (by decide) (by decide) (by decide)).2
    (str "model_b") (by decide)

/-- Claim C5: a reference whose match key is unknown to the model-name
map, or equal to the lowercased model name of the result containing it
(a self-reference), is classified as a source: the decision is `none` and
the `TableRef` is appended to that result's `sources`. -/
theorem claim_C5_unknown_or_self_is_source
    (results : List ConversionResult) (result : ConversionResult)
    (t : TableRef)
    ( _hres : result ∈ results)
    (htr : t ∈ result.table_refs)
    (h : modelNamesLookup results (matchKey t) = none ∨
         matchKey t = lowerStr result.model_name) :
    refTarget results result t = none ∧
    t ∈ (categorizeLoop results result result.table_refs).2 := by
  have hrt : refTarget results result t = none := by
    simp only [refTarget]
    rcases h with h | h
    · rw [h]
    · cases hm : modelNamesLookup results (matchKey t) with
      | none => rfl
      | some c =>
        show (if matchKey t ≠ lowerStr result.model_name ∧
            is_likely_ref results t (matchKey t) = true then some c else none)
          = none
        rw [if_neg]
        rintro ⟨hne, -⟩
        exact hne h
  refine ⟨hrt, ?_⟩
  rw [categorizeLoop_eq]
  exact List.mem_filter.mpr ⟨htr, by rw [hrt]; rfl⟩

/-- Witness for C5: a reference to the external table `EXT.raw.ext_tbl`,
unknown to the model-name map, lands in `sources`. -/
theorem claim_C5_unknown_or_self_is_source_witness :
    refTarget demoResults demoResA demoExtRef = none ∧
    demoExtRef ∈ (categorizeLoop demoResults demoResA
      demoResA.table_refs).2 :=
  claim_C5_unknown_or_self_is_source demoResults demoResA demoExtRef
    (by decide) (by decide) (Or.inl (by decide))

/-! ## Canonical-name resolution lemmas -/

theorem nonBaseTablesLower_of_unique (tables : List Str) (key : Str)
    (tPlain : Str)
    (hmem : tPlain ∈ tables) (hnb : endsWithBASE tPlain = false)
    (hkey : lowerStr (strip_base_suffix tPlain) = key)
    (huniq : ∀ u ∈ tables, endsWithBASE u = false →
      lowerStr (strip_base_suffix u) = key → u = tPlain) :
    nonBaseTablesLower tables key = some (strip_base_suffix tPlain) := by
  unfold nonBaseTablesLower
  have hmem2 : tPlain ∈ (tables.filter (fun t => ¬ endsWithBASE t)).filter
      (fun t => lowerStr (strip_base_suffix t) = key) := by
    simp only [List.mem_filter, decide_eq_true_eq]
    exact ⟨⟨hmem, by simp [hnb]⟩, hkey⟩
  have hne : (tables.filter (fun t => ¬ endsWithBASE t)).filter
      (fun t => lowerStr (strip_base_suffix t) = key) ≠ [] :=
    List.ne_nil_of_mem hmem2
  rw [List.getLast?_eq_getLast_of_ne_nil hne]
  have hgl := List.getLast_mem hne
  have h1 := List.mem_filter.mp hgl
  have h2 := List.mem_filter.mp h1.1
  have heq := huniq _ h2.1 (by simpa using h2.2) (by simpa using h1.2)
  rw [heq]
  rfl

theorem nonBaseTablesLower_of_absent (tables : List Str) (key : Str)
    (habs : ∀ u ∈ tables, endsWithBASE u = false →
      lowerStr (strip_base_suffix u) ≠ key) :
    nonBaseTablesLower tables key = none := by
  unfold nonBaseTablesLower
  have hnil : (tables.filter (fun t => ¬ endsWithBASE t)).filter
      (fun t => lowerStr (strip_base_suffix t) = key) = [] := by
    rw [List.eq_nil_iff_forall_not_mem]
    intro u hu
    have h1 := List.mem_filter.mp hu
    have h2 := List.mem_filter.mp h1.1
    exact habs u h2.1 (by simpa using h2.2) (by simpa using h1.2)
  rw [hnil]
  rfl

/-- Claim C6: within one `(database, schema)` source group of the batch,
a `BASE`-suffixed table name with a (unique) non-suffixed counterpart of
the same stripped lowercased name resolves to the counterpart's exact
casing — so the injector emits the same placeholder table name for both —
and a `BASE`-suffixed name with no such counterpart resolves to its own
stripped form. -/
theorem claim_C6_canonical_name_resolution (cats : List CategorizedRefs)
    (db schema tBase tPlain : Str)
    (hB : endsWithBASE tBase = true)
    (hmemB : tBase ∈ allSourcesByLocation cats db schema) :
    ((tPlain ∈ allSourcesByLocation cats db schema ∧
      endsWithBASE tPlain = false ∧
      lowerStr (strip_base_suffix tPlain) = lowerStr (strip_base_suffix tBase) ∧
      (∀ u ∈ allSourcesByLocation cats db schema, endsWithBASE u = false →
        lowerStr (strip_base_suffix u) = lowerStr (strip_base_suffix tBase) →
        u = tPlain)) →
      canonicalNameAt cats db schema tBase = strip_base_suffix tPlain ∧
      canonicalNameAt cats db schema tPlain = strip_base_suffix tPlain ∧
      emittedTableName (canonicalNameAt cats db schema tBase)
        = emittedTableName (canonicalNameAt cats db schema tPlain)) ∧
    ((∀ u ∈ allSourcesByLocation cats db schema, endsWithBASE u = false →
        lowerStr (strip_base_suffix u) ≠ lowerStr (strip_base_suffix tBase)) →
      canonicalNameAt cats db schema tBase = strip_base_suffix tBase) := by
  constructor
  · rintro ⟨hmemP, hnbP, hkeyP, huniq⟩
    have hbase : canonicalNameAt cats db schema tBase
        = strip_base_suffix tPlain := by
      unfold canonicalNameAt
      rw [if_pos hmemB, if_pos hB,
        nonBaseTablesLower_of_unique _ _ tPlain hmemP hnbP hkeyP huniq]
    have hplain : canonicalNameAt cats db schema tPlain
        = strip_base_suffix tPlain := by
      unfold canonicalNameAt
      rw [if_pos hmemP, if_neg]
      rw [hnbP]
      exact Bool.false_ne_true
    exact ⟨hbase, hplain, by rw [hbase, hplain]⟩
  · intro habs
    unfold canonicalNameAt
    rw [if_pos hmemB, if_pos hB,
      nonBaseTablesLower_of_absent _ _ habs]

/-- Witness for C6: `PatientBASE` (observed in one file) and `Patient`
(observed in another file of the same batch, same `(SAM, dbo)` group)
resolve to the same canonical name `Patient` and the same emitted
placeholder table name. -/
theorem claim_C6_canonical_name_resolution_witness :
    canonicalNameAt demoCats (str "SAM") (str "dbo") (str "PatientBASE")
      = strip_base_suffix (str "Patient") ∧
    canonicalNameAt demoCats (str "SAM") (str "dbo") (str "Patient")
      = strip_base_suffix (str "Patient") ∧
    emittedTableName (canonicalNameAt demoCats (str "SAM") (str "dbo")
        (str "PatientBASE"))
      = emittedTableName (canonicalNameAt demoCats (str "SAM") (str "dbo")
        (str "Patient")) :=
  (claim_C6_canonical_name_resolution demoCats (str "SAM") (str "dbo")
    (str "PatientBASE") (str "Patient") (by decide) (by decide)).1
    ⟨by decide, by decide, by decide, by decide⟩

/-- Claim C7: `_replace_table_with_source` tries the fully-qualified, then
the schema-qualified, then the bare pattern, and substitutes using only
the first pattern that matches anywhere in the text: when the
fully-qualified pattern applies and matches, the result is exactly its
substitution; a weaker pattern is used only when every stronger pattern
is inapplicable or fails to match. -/
theorem claim_C7_most_specific_pattern_wins (sql : Str) (t : TableRef)
    (source_name table_name : Str) :
    ((t.database ≠ [] ∧ t.schema ≠ []) → searchPat (fullPat t) sql = true →
      replace_table_with_source sql t source_name table_name
        = subPat (fullPat t) (sourcePlaceholder source_name table_name) sql) ∧
    ((t.database = [] ∨ t.schema = [] ∨ searchPat (fullPat t) sql = false) →
      t.schema ≠ [] → searchPat (schemaPat t) sql = true →
      replace_table_with_source sql t source_name table_name
        = subPat (schemaPat t) (sourcePlaceholder source_name table_name) sql) ∧
    ((t.database = [] ∨ t.schema = [] ∨ searchPat (fullPat t) sql = false) →
      (t.schema = [] ∨ searchPat (schemaPat t) sql = false) →
      replace_table_with_source sql t source_name table_name
        = (if searchPat (barePat t) sql = true
           then subPat (barePat t) (sourcePlaceholder source_name table_name)
             sql
           else sql)) := by
  unfold replace_table_with_source buildPatterns
  refine ⟨?_, ?_, ?_⟩
  · rintro ⟨hdb, hsc⟩ hfull
    rw [if_pos ⟨hdb, hsc⟩]
    simp [firstSub, hfull]
  · intro hnot hsc hschema
    rcases hnot with h | h | h
    · have hq : ¬(t.database ≠ [] ∧ t.schema ≠ []) := fun hc => hc.1 h
      rw [if_neg hq, if_pos hsc]
      simp [firstSub, hschema]
    · exact absurd h hsc
    · by_cases hq : t.database ≠ [] ∧ t.schema ≠ []
      · rw [if_pos hq, if_pos hsc]
        simp [firstSub, h, hschema]
      · rw [if_neg hq, if_pos hsc]
        simp [firstSub, hschema]
  · intro hnot1 hnot2
    by_cases hq : t.database ≠ [] ∧ t.schema ≠ []
    · have hfull : searchPat (fullPat t) sql = false := by
        rcases hnot1 with h | h | h
        · exact (hq.1 h).elim
        · exact (hq.2 h).elim
        · exact h
      have hschema : searchPat (schemaPat t) sql = false := by
        rcases hnot2 with h | h
        · exact (hq.2 h).elim
        · exact h
      rw [if_pos hq, if_pos hq.2]
      simp [firstSub, hfull, hschema]
    · rw [if_neg hq]
      by_cases hsc : t.schema ≠ []
      · have hschema : searchPat (schemaPat t) sql = false := by
          rcases hnot2 with h | h
          · exact (hsc h).elim
          · exact h
        rw [if_pos hsc]
        simp [firstSub, hschema]
      · rw [if_neg hsc]
        simp [firstSub]

/-- Witness for C7: with a fully-qualified reference `SAM.dbo.Units`
present in the text, the rewriter's output is exactly the substitution of
the fully-qualified pattern. -/
theorem claim_C7_most_specific_pattern_wins_witness :
    replace_table_with_source demoSql demoTRef (str "sam_dbo") (str "units")
      = subPat (fullPat demoTRef)
        (sourcePlaceholder (str "sam_dbo") (str "units")) demoSql :=
  (claim_C7_most_specific_pattern_wins demoSql demoTRef (str "sam_dbo")
    (str "units")).1 (by decide) (by decide)

/-! ## String-order lemmas for the sorted metadata documents -/

theorem strLe_total : ∀ a b : Str, strLe a b = true ∨ strLe b a = true
  | [], _ => Or.inl rfl
  | _ :: _, [] => Or.inr rfl
  | a :: as, b :: bs => by
    rcases lt_trichotomy a b with h | h | h
    · left
      simp [strLe, h]
    · subst h
      rcases strLe_total as bs with ih | ih
      · left
        simp [strLe, ih]
      · right
        simp [strLe, ih]
    · right
      simp [strLe, h]

theorem strLe_trans : ∀ a b c : Str,
    strLe a b = true → strLe b c = true → strLe a c = true
  | [], _, _, _, _ => rfl
  | _ :: _, [], _, h1, _ => by simp [strLe] at h1
  | _ :: _, _ :: _, [], _, h2 => by simp [strLe] at h2
  | a :: as, b :: bs, c :: cs, h1, h2 => by
    simp only [strLe] at h1 h2 ⊢
    by_cases hab : a < b
    · by_cases hbc : b < c
      · simp [lt_trans hab hbc]
      · by_cases hbc2 : b = c
        · subst hbc2
          simp [hab]
        · rw [if_neg hbc, if_neg hbc2] at h2
          exact absurd h2 (by simp)
    · by_cases hab2 : a = b
      · subst hab2
        rw [if_neg hab, if_pos rfl] at h1
        by_cases hbc : a < c
        · simp [hbc]
        · by_cases hbc2 : a = c
          · subst hbc2
            rw [if_neg hbc, if_pos rfl] at h2
            rw [if_neg hbc, if_pos rfl]
            exact strLe_trans as bs cs h1 h2
          · rw [if_neg hbc, if_neg hbc2] at h2
            exact absurd h2 (by simp)
      · rw [if_neg hab, if_neg hab2] at h1
        exact absurd h1 (by simp)

theorem filterMap_if_eq_filter_map {α β : Type} (p : α → Prop)
    [DecidablePred p] (f : α → β) :
    ∀ l : List α,
      (l.filterMap (fun a => if p a then some (f a) else none))
        = (l.filter (fun a => decide (p a))).map f
  | [] => rfl
  | a :: l => by
    by_cases h : p a <;>
      simp [List.filterMap_cons, List.filter_cons, h,
        filterMap_if_eq_filter_map p f l]

/-- Claim C9: `extract_refs` writes the `model_refs` document iff some
model has a non-empty `refs` list; the document has version 2 and exactly
one `{model, depends_on}` entry per model with non-empty refs (in order),
each `depends_on` being that model's refs sorted. -/
theorem claim_C9_refs_doc_conditional (cats : List CategorizedRefs) :
    (extract_refs cats = none ↔ ∀ cat ∈ cats, cat.refs = []) ∧
    ∀ doc, extract_refs cats = some doc →
      doc.version = 2 ∧
      doc.model_refs = (cats.filter (fun c => c.refs ≠ [])).map
        (fun cat => RefsEntry.mk cat.model_name (sortStrs cat.refs)) ∧
      ∀ e ∈ doc.model_refs,
        List.Sorted (fun a b => strLe a b = true) e.depends_on ∧
        ∃ cat ∈ cats, cat.refs ≠ [] ∧ e.model = cat.model_name ∧
          e.depends_on.Perm cat.refs := by
  have hfm : cats.filterMap (fun cat =>
        if cat.refs ≠ [] then
          some (RefsEntry.mk cat.model_name (sortStrs cat.refs))
        else none)
      = (cats.filter (fun c => c.refs ≠ [])).map
        (fun cat => RefsEntry.mk cat.model_name (sortStrs cat.refs)) :=
    filterMap_if_eq_filter_map _ _ cats
  have hkey : (cats.filterMap (fun cat =>
        if cat.refs ≠ [] then
          some (RefsEntry.mk cat.model_name (sortStrs cat.refs))
        else none) = []) ↔ ∀ cat ∈ cats, cat.refs = [] := by
    rw [hfm]
    simp [List.filter_eq_nil_iff]
  constructor
  · unfold extract_refs
    by_cases h : (cats.filterMap (fun cat =>
        if cat.refs ≠ [] then
          some (RefsEntry.mk cat.model_name (sortStrs cat.refs))
        else none) = [])
    · rw [if_pos h]
      exact iff_of_true rfl (hkey.mp h)
    · rw [if_neg h]
      exact iff_of_false (by simp) (fun hall => h (hkey.mpr hall))
  · intro doc hdoc
    unfold extract_refs at hdoc
    by_cases h : (cats.filterMap (fun cat =>
        if cat.refs ≠ [] then
          some (RefsEntry.mk cat.model_name (sortStrs cat.refs))
        else none) = [])
    · rw [if_pos h] at hdoc
      exact absurd hdoc (by simp)
    · rw [if_neg h] at hdoc
      have hd := Option.some.inj hdoc
      subst hd
      refine ⟨rfl, hfm, ?_⟩
      intro e he
      rw [show (RefsDoc.mk 2 (cats.filterMap (fun cat =>
          if cat.refs ≠ [] then
            some (RefsEntry.mk cat.model_name (sortStrs cat.refs))
          else none))).model_refs = cats.filterMap (fun cat =>
          if cat.refs ≠ [] then
            some (RefsEntry.mk cat.model_name (sortStrs cat.refs))
          else none) from rfl, hfm] at he
      obtain ⟨cat, hcat, rfl⟩ := List.mem_map.mp he
      have hcf := List.mem_filter.mp hcat
      haveI : IsTotal Str (fun a b => strLe a b = true) := ⟨strLe_total⟩
      haveI : IsTrans Str (fun a b => strLe a b = true) :=
        ⟨fun a b c => strLe_trans a b c⟩
      refine ⟨List.sorted_insertionSort _ _, cat, hcf.1,
        by simpa using hcf.2, rfl, List.perm_insertionSort _ _⟩

/-- Witness for C9: on a one-model batch whose model has one ref, the
emitted entry is sorted and a permutation of that model's refs. -/
theorem claim_C9_refs_doc_conditional_witness :
    List.Sorted (fun a b => strLe a b = true)
      (RefsEntry.mk (str "model_a") [str "model_b"]).depends_on ∧
    ∃ cat ∈ demoCatsRefs, cat.refs ≠ [] ∧
      (RefsEntry.mk (str "model_a") [str "model_b"]).model = cat.model_name ∧
      (RefsEntry.mk (str "model_a") [str "model_b"]).depends_on.Perm
        cat.refs :=
  ((claim_C9_refs_doc_conditional demoCatsRefs).2
    (RefsDoc.mk 2 [RefsEntry.mk (str "model_a") [str "model_b"]])
    (by decide)).2.2 (RefsEntry.mk (str "model_a") [str "model_b"])
    (by decide)

/-- Claim C10: the emitted sources document contains only tables whose
observed name does not end with the exact uppercase string `BASE`
(a `BASE`-ender appears nowhere, even with no unsuffixed counterpart in
its group), and every observed source table not ending in exact `BASE` —
including ones ending in `Base` or `base` — does appear; the filter is
case-sensitive. -/
theorem claim_C10_sources_doc_drops_BASE (cats : List CategorizedRefs) :
    (∀ entry ∈ (extract_sources cats).sources, ∀ te ∈ entry.tables,
      ∃ r ∈ sourceRefsFlat cats, endsWithBASE r.table = false ∧
        te = mkTableEntry r.table) ∧
    (∀ r ∈ sourceRefsFlat cats, endsWithBASE r.table = false →
      ∃ entry ∈ (extract_sources cats).sources,
        mkTableEntry r.table ∈ entry.tables) ∧
    endsWithBASE (str "PatientBase") = false ∧
    endsWithBASE (str "Patientbase") = false ∧
    endsWithBASE (str "PatientBASE") = true := by
  refine ⟨?_, ?_, by decide, by decide, by decide⟩
  · intro entry hentry te hte
    unfold extract_sources at hentry
    obtain ⟨key, hkey, rfl⟩ := List.mem_map.mp hentry
    simp only [mkSourceEntry] at hte
    obtain ⟨t0, ht0, rfl⟩ := List.mem_map.mp hte
    unfold sortStrs at ht0
    rw [List.mem_insertionSort] at ht0
    unfold deduplicate_base_tables at ht0
    have ht1 := List.mem_filter.mp ht0
    have hnb : endsWithBASE t0 = false := by simpa using ht1.2
    unfold groupTables at ht1
    have ht2 := List.mem_dedup.mp ht1.1
    obtain ⟨r, hr, hrt⟩ := List.mem_filterMap.mp ht2
    by_cases hk : groupKeyLower r = key
    · rw [if_pos hk] at hrt
      have hrt2 : r.table = t0 := Option.some.inj hrt
      exact ⟨r, hr, by rw [hrt2]; exact hnb, by rw [hrt2]⟩
    · rw [if_neg hk] at hrt
      exact absurd hrt (by simp)
  · intro r hr hnb
    refine ⟨mkSourceEntry cats (groupKeyLower r), ?_, ?_⟩
    · unfold extract_sources
      apply List.mem_map_of_mem
      unfold sortPairs
      rw [List.mem_insertionSort]
      unfold groupKeys
      exact List.mem_dedup.mpr (List.mem_map_of_mem _ hr)
    · simp only [mkSourceEntry]
      apply List.mem_map_of_mem
      unfold sortStrs
      rw [List.mem_insertionSort]
      unfold deduplicate_base_tables
      refine List.mem_filter.mpr ⟨?_, by simp [hnb]⟩
      unfold groupTables
      refine List.mem_dedup.mpr (List.mem_filterMap.mpr ⟨r, hr, ?_⟩)
      rw [if_pos rfl]

/-- Witness for C10: `Patient` (not ending in exact `BASE`) appears in the
emitted sources document for the demo batch. -/
theorem claim_C10_sources_doc_drops_BASE_witness :
    ∃ entry ∈ (extract_sources demoCats).sources,
      mkTableEntry demoSrcPlain.table ∈ entry.tables :=
  (claim_C10_sources_doc_drops_BASE demoCats).2.1 demoSrcPlain (by decide)
    (by decide)
